import Mathlib

/-!
Shallow embedding of the stateful core of `src/poetry_camera_app.jsx`:
the deferred-deletion mechanism of `HistoryScreen` (long-press delete with a
5-second undo window) and the long-press detection of `ShotItem`.

All other code in the file is static presentational layout with no state
machine behavior, and is out of scope per the specification.
-/

/-- A history item. The source builds the store as
`Array.from` of length 8 mapping index `i` to an object whose only field is
`id: i + 1`; the core never reads any other attribute, so a shot is its id.
JavaScript numbers here are always small integers, modelled as `Int`. -/
structure Shot where
  id : Int
deriving DecidableEq, Repr

/-- The identity ordering used by `undoDelete`'s comparator
`(a, b) => a.id - b.id`: a negative difference puts `a` first, so the
comparator sorts ascending by `id`. -/
def shotLe (a b : Shot) : Prop := a.id ≤ b.id

instance : DecidableRel shotLe := fun a b => inferInstanceAs (Decidable (a.id ≤ b.id))

instance : IsTotal Shot shotLe := ⟨fun a b => Int.le_total a.id b.id⟩

instance : IsTrans Shot shotLe := ⟨fun _ _ _ hab hbc => le_trans hab hbc⟩

instance : IsAntisymm Shot shotLe :=
  ⟨fun a b hab hba => by cases a; cases b; exact congrArg Shot.mk (le_antisymm hab hba)⟩

/-- The pending-deletion record stored in the `pending` state variable:
`setPending(\x7b id, secondsLeft: 5 \x7d)`. -/
structure PendingRec where
  id : Int
  secondsLeft : Int
deriving DecidableEq, Repr

/-- The state of `HistoryScreen`: the `shots` list and the `pending` slot
(`null` modelled as `none`). -/
structure HistoryState where
  shots : List Shot
  pending : Option PendingRec
deriving DecidableEq, Repr

/-- The dummy shots: ids 1 through 8, in ascending order. -/
def initialShots : List Shot := (List.range 8).map (fun i => { id := (i : Int) + 1 })

/-- Initial component state: `useState(initialShots)` and `useState(null)`. -/
def historyInit : HistoryState := { shots := initialShots, pending := none }

/-- Source `handleLongPressDelete(id)`: if `pending` is non-null, return
(only one undoable deletion at a time); otherwise filter `id` out of the
shots and set `pending` to a fresh record with `secondsLeft: 5`.
Note the source performs no membership check on `id`. -/
def handleLongPressDelete (id : Int) (st : HistoryState) : HistoryState :=
  match st.pending with
  | some _ => st
  | none =>
    { shots := st.shots.filter (fun shot => shot.id != id),
      pending := some { id := id, secondsLeft := 5 } }

/-- Source countdown-effect interval callback (fires once per 1000 ms while
an interval is live): `setPending(p => ...)` returns `null` when `p` is null,
clears the interval and returns `null` (finalizing the deletion) when
`p.secondsLeft <= 1`, and otherwise returns `p` with `secondsLeft`
decremented. It never touches `shots`. -/
def countdownTick (st : HistoryState) : HistoryState :=
  match st.pending with
  | none => st
  | some p =>
    if p.secondsLeft ≤ 1 then { st with pending := none }
    else { st with pending := some { id := p.id, secondsLeft := p.secondsLeft - 1 } }

/-- Source `undoDelete()`: if `pending` is null, return; otherwise set
`shots` to the spread of the old list plus a new shot with the pending id,
sorted by the comparator `(a, b) => a.id - b.id`, and clear `pending`.
JavaScript's stable sort on shots (which are equal whenever their ids are)
is exactly insertion sort by `shotLe`. -/
def undoDelete (st : HistoryState) : HistoryState :=
  match st.pending with
  | none => st
  | some p =>
    { shots := List.insertionSort shotLe (st.shots ++ [{ id := p.id }]),
      pending := none }

/-- The countdown `useEffect` is keyed on `pending`: it starts an interval
exactly when `pending` becomes non-null, and the interval is cleared on every
path out of that `pending` value (the effect cleanup, and `clearInterval`
inside the finalizing branch). Hence an interval is scheduled if and only if
a pending record exists. -/
def intervalActive (st : HistoryState) : Bool := st.pending.isSome

/-- The operations the presentation layer can deliver to `HistoryScreen`. -/
inductive HistEvent where
  | requestDelete (id : Int)
  | tick
  | undo
deriving DecidableEq, Repr

/-- One delivered event, run to completion (single-threaded event model). -/
def histStep (st : HistoryState) : HistEvent → HistoryState
  | .requestDelete id => handleLongPressDelete id st
  | .tick => countdownTick st
  | .undo => undoDelete st

/-- A sequence of delivered events, in order, with no reordering. -/
def runHist (st : HistoryState) (evs : List HistEvent) : HistoryState :=
  evs.foldl histStep st

/-- Key-uniqueness invariant of the store together with the single-slot
property that the pending id is absent from the store while pending. -/
def histKeyInv (st : HistoryState) : Prop :=
  (st.shots.map Shot.id).Nodup ∧
  ∀ p : PendingRec, st.pending = some p → p.id ∉ st.shots.map Shot.id

/-- Bounds invariant of the countdown value while a pending record exists. -/
def pendingSecondsInv (st : HistoryState) : Prop :=
  ∀ p : PendingRec, st.pending = some p → 1 ≤ p.secondsLeft ∧ p.secondsLeft ≤ 5

/-! ### Press detector (`ShotItem`) -/

/-- The long-press threshold: `setTimeout(() => onLongPress(id), 3000)`. -/
def pressThresholdMs : Nat := 3000

/-- State of one `ShotItem` instance and its timer environment.
`now` is the current time in milliseconds. `current` is the fire time of the
timer whose handle `timerRef.current` holds, if that timer is still armed
(a fired or cleared timer behaves identically to a null ref, since
`clearTimeout` on it is a no-op). `orphaned` holds fire times of timers whose
handles were overwritten by a later `startPress` while still armed: the
source never calls `clearTimeout` in `startPress`, so these stay scheduled.
`fireCount` counts emitted long-press events. -/
structure PressState where
  now : Nat
  current : Option Nat
  orphaned : List Nat
  fireCount : Nat
deriving DecidableEq, Repr

/-- Fresh instance: `useRef(null)`, no timers, nothing emitted, time 0. -/
def pressInit : PressState := { now := 0, current := none, orphaned := [], fireCount := 0 }

/-- Gesture and time events delivered to one `ShotItem` instance.
`start` is `onMouseDown`/`onTouchStart`; `stop` is any of
`onMouseUp`/`onMouseLeave`/`onTouchEnd`; `elapse d` advances time by `d` ms,
firing every armed timer whose deadline is reached. -/
inductive PressEvent where
  | start
  | stop
  | elapse (d : Nat)
deriving DecidableEq, Repr

/-- Source `startPress` assigns `timerRef.current = setTimeout(..., 3000)`
without clearing the old handle, so a still-armed previous timer is orphaned,
not cancelled. Source `endPress` runs
`timerRef.current && clearTimeout(timerRef.current)`, cancelling only the
timer whose handle the ref holds. Elapsing time fires every armed timer whose
fire time has been reached, once each. -/
def pressStep (st : PressState) : PressEvent → PressState
  | .start =>
    { st with
      current := some (st.now + pressThresholdMs)
      orphaned :=
        match st.current with
        | some f => f :: st.orphaned
        | none => st.orphaned }
  | .stop => { st with current := none }
  | .elapse d =>
    { now := st.now + d
      current :=
        match st.current with
        | some f => if f ≤ st.now + d then none else some f
        | none => none
      orphaned := st.orphaned.filter (fun f => decide (st.now + d < f))
      fireCount := st.fireCount +
        (match st.current with
          | some f => if f ≤ st.now + d then 1 else 0
          | none => 0) +
        (st.orphaned.filter (fun f => decide (f ≤ st.now + d))).length }

/-- A sequence of events delivered to one instance, in order. -/
def runPress (st : PressState) (evs : List PressEvent) : PressState :=
  evs.foldl pressStep st

/-- Number of armed timers existing for the instance. -/
def armedCount (st : PressState) : Nat :=
  (match st.current with | some _ => 1 | none => 0) + st.orphaned.length

example : (historyInit.shots.map Shot.id) = [1, 2, 3, 4, 5, 6, 7, 8] := by decide

example :
    (handleLongPressDelete 3 historyInit).pending = some { id := 3, secondsLeft := 5 } := by
  decide

example :
    (runHist historyInit [HistEvent.requestDelete 3, HistEvent.tick, HistEvent.undo]).shots
      = initialShots := by decide

/-! ### Basic run lemmas -/

theorem runHist_nil (st : HistoryState) : runHist st [] = st := rfl

theorem runHist_cons (st : HistoryState) (e : HistEvent) (evs : List HistEvent) :
    runHist st (e :: evs) = runHist (histStep st e) evs := rfl

theorem runHist_append (st : HistoryState) (l1 l2 : List HistEvent) :
    runHist st (l1 ++ l2) = runHist (runHist st l1) l2 :=
  List.foldl_append histStep st l1 l2

theorem runPress_nil (st : PressState) : runPress st [] = st := rfl

theorem runPress_cons (st : PressState) (e : PressEvent) (evs : List PressEvent) :
    runPress st (e :: evs) = runPress (pressStep st e) evs := rfl

theorem runPress_append (st : PressState) (l1 l2 : List PressEvent) :
    runPress st (l1 ++ l2) = runPress (runPress st l1) l2 :=
  List.foldl_append pressStep st l1 l2

theorem countdownTick_shots (st : HistoryState) : (countdownTick st).shots = st.shots := by
  cases h : st.pending <;> simp [countdownTick, h]
  split <;> rfl

theorem runHist_replicate_tick (k : Nat) (sh : List Shot) (i : Int) :
    ∀ s : Int, (k : Int) < s →
      runHist { shots := sh, pending := some { id := i, secondsLeft := s } }
          (List.replicate k HistEvent.tick)
        = { shots := sh, pending := some { id := i, secondsLeft := s - k } } := by
  induction k with
  | zero => intro s _; simp [runHist_nil]
  | succ k ih =>
    intro s hs
    have hk : (0 : Int) ≤ (k : Int) := Int.ofNat_nonneg k
    have hcast : ((k + 1 : Nat) : Int) = (k : Int) + 1 := by push_cast; ring
    rw [hcast] at hs
    have h1 : ¬ s ≤ 1 := by omega
    rw [List.replicate_succ, runHist_cons]
    have hstep : histStep { shots := sh, pending := some { id := i, secondsLeft := s } }
        HistEvent.tick = { shots := sh, pending := some { id := i, secondsLeft := s - 1 } } := by
      simp [histStep, countdownTick, h1]
    rw [hstep, ih (s - 1) (by omega)]
    have : s - 1 - (k : Int) = s - ((k + 1 : Nat) : Int) := by rw [hcast]; ring
    rw [this]

/-! ### Claims about the pending-deletion controller -/

/-- C1 counterexample: requesting deletion of id 99, absent from a store
holding only id 1, while `Idle`, is not a no-op: the store is unchanged but a
`Pending` record for 99 is created (the source has no membership check). -/
theorem requestDelete_absent_counterexample :
    ¬ ((handleLongPressDelete 99 { shots := [{ id := 1 }], pending := none }).shots
          = [{ id := 1 }]
        ∧ (handleLongPressDelete 99 { shots := [{ id := 1 }], pending := none }).pending
          = none) := by decide

/-- C1 amended: for every id not present in the store, `requestDelete(id)`
while `Idle` leaves the store unchanged but does create a `Pending` record
for that id with `secondsLeft` 5 — the controller leaves `Idle`. -/
theorem requestDelete_absent_creates_pending (id : Int) (st : HistoryState)
    (hidle : st.pending = none) (habs : ∀ sh ∈ st.shots, sh.id ≠ id) :
    handleLongPressDelete id st
      = { shots := st.shots, pending := some { id := id, secondsLeft := 5 } } := by
  simp only [handleLongPressDelete, hidle]
  have : st.shots.filter (fun shot => shot.id != id) = st.shots :=
    List.filter_eq_self.2 (fun sh hsh => by simpa using habs sh hsh)
  rw [this]

theorem requestDelete_absent_creates_pending_witness :
    handleLongPressDelete 99 { shots := [{ id := 1 }], pending := none }
      = { shots := [{ id := 1 }], pending := some { id := 99, secondsLeft := 5 } } :=
  requestDelete_absent_creates_pending 99 { shots := [{ id := 1 }], pending := none } rfl
    (by decide)

/-- C2 counterexample: two `startPress` calls in a row leave two armed timers
for the one instance (the first is orphaned, not cancelled), refuting that at
most one armed timer exists at any time. -/
theorem startPress_double_timer_counterexample :
    ¬ (armedCount (runPress pressInit [PressEvent.start, PressEvent.start]) ≤ 1) := by decide

/-- C2 amended: if `onPressStart` is called while a timer is already armed,
the new timer's handle overwrites the stored reference but the prior timer is
not cancelled: it stays armed alongside the new one, so the number of armed
timers grows by one and two timers can coexist for one instance. -/
theorem startPress_overwrites_without_cancel (st : PressState) (f : Nat)
    (h : st.current = some f) :
    pressStep st PressEvent.start
        = { st with current := some (st.now + pressThresholdMs), orphaned := f :: st.orphaned }
      ∧ armedCount (pressStep st PressEvent.start) = armedCount st + 1 := by
  constructor
  · simp [pressStep, h]
  · simp [pressStep, armedCount, h]
    omega

theorem startPress_overwrites_without_cancel_witness :
    pressStep { now := 0, current := some 3000, orphaned := [], fireCount := 0 } PressEvent.start
        = { now := 0, current := some (0 + pressThresholdMs), orphaned := [3000], fireCount := 0 }
      ∧ armedCount (pressStep { now := 0, current := some 3000, orphaned := [], fireCount := 0 }
            PressEvent.start)
          = armedCount { now := 0, current := some 3000, orphaned := [], fireCount := 0 } + 1 :=
  startPress_overwrites_without_cancel
    { now := 0, current := some 3000, orphaned := [], fireCount := 0 } 3000 rfl

/-- C5: on acceptance the countdown starts at W = 5; while `Pending` with
countdown value at least 1, a tick decrements by exactly one, the controller
stays `Pending` with the decremented value when that value is positive, and
finalizes (record discarded, state `Idle`, interval stopped) exactly when the
decremented value reaches 0. -/
theorem pending_countdown_steps :
    (∀ (id : Int) (st : HistoryState), st.pending = none →
      (handleLongPressDelete id st).pending = some { id := id, secondsLeft := 5 }) ∧
    (∀ (st : HistoryState) (p : PendingRec), st.pending = some p → 1 ≤ p.secondsLeft →
      (0 < p.secondsLeft - 1 →
        countdownTick st
          = { st with pending := some { id := p.id, secondsLeft := p.secondsLeft - 1 } }) ∧
      (p.secondsLeft - 1 = 0 →
        countdownTick st = { st with pending := none }
          ∧ intervalActive (countdownTick st) = false)) := by
  constructor
  · intro id st h
    simp [handleLongPressDelete, h]
  · intro st p hp h1
    constructor
    · intro hgt
      have hn : ¬ p.secondsLeft ≤ 1 := by omega
      simp [countdownTick, hp, hn]
    · intro heq
      have hy : p.secondsLeft ≤ 1 := by omega
      constructor
      · simp [countdownTick, hp, hy]
      · simp [countdownTick, hp, hy, intervalActive]

theorem pending_countdown_steps_witness :
    (handleLongPressDelete 2 historyInit).pending = some { id := 2, secondsLeft := 5 }
    ∧ countdownTick { shots := initialShots, pending := some { id := 2, secondsLeft := 3 } }
        = { shots := initialShots, pending := some { id := 2, secondsLeft := 3 - 1 } } :=
  ⟨pending_countdown_steps.1 2 historyInit rfl,
    (pending_countdown_steps.2
        { shots := initialShots, pending := some { id := 2, secondsLeft := 3 } }
        { id := 2, secondsLeft := 3 } rfl (by decide)).1 (by decide)⟩

/-- C6: while `Pending`, `requestDelete(id')` for any id' (pending id or
not) leaves the whole state — store and pending record — unchanged: only one
undoable deletion is in flight at a time. -/
theorem requestDelete_while_pending_noop (id : Int) (st : HistoryState) (p : PendingRec)
    (hp : st.pending = some p) : handleLongPressDelete id st = st := by
  simp [handleLongPressDelete, hp]

theorem requestDelete_while_pending_noop_witness :
    handleLongPressDelete 2 { shots := initialShots, pending := some { id := 2, secondsLeft := 4 } }
      = { shots := initialShots, pending := some { id := 2, secondsLeft := 4 } } :=
  requestDelete_while_pending_noop 2
    { shots := initialShots, pending := some { id := 2, secondsLeft := 4 } }
    { id := 2, secondsLeft := 4 } rfl

/-- C3: from `Idle`, requesting deletion of a present id and then 5 ticks
with no undo puts `secondsLeft` through 5, 4, 3, 2, 1 and finalizes on the
5th tick: the item is permanently absent, the controller is back in `Idle`
with the interval stopped, and the store is mutated only on entry to
`Pending` — the 5th tick (like every tick) leaves the store untouched. -/
theorem requestDelete_then_five_ticks (st : HistoryState) (id : Int)
    (hidle : st.pending = none) (_hmem : id ∈ st.shots.map Shot.id) :
    (handleLongPressDelete id st).pending = some { id := id, secondsLeft := 5 }
    ∧ runHist (handleLongPressDelete id st) (List.replicate 5 HistEvent.tick)
        = { shots := (handleLongPressDelete id st).shots, pending := none }
    ∧ id ∉ ((runHist (handleLongPressDelete id st)
          (List.replicate 5 HistEvent.tick)).shots.map Shot.id)
    ∧ intervalActive (runHist (handleLongPressDelete id st)
          (List.replicate 5 HistEvent.tick)) = false
    ∧ (countdownTick (runHist (handleLongPressDelete id st)
          (List.replicate 4 HistEvent.tick))).shots
        = (runHist (handleLongPressDelete id st) (List.replicate 4 HistEvent.tick)).shots
    ∧ runHist (handleLongPressDelete id st) (List.replicate 5 HistEvent.tick)
        = countdownTick (runHist (handleLongPressDelete id st)
            (List.replicate 4 HistEvent.tick)) := by
  have hs1 : handleLongPressDelete id st
      = { shots := st.shots.filter (fun shot => shot.id != id),
          pending := some { id := id, secondsLeft := 5 } } := by
    simp [handleLongPressDelete, hidle]
  have h4 : runHist (handleLongPressDelete id st) (List.replicate 4 HistEvent.tick)
      = { shots := st.shots.filter (fun shot => shot.id != id),
          pending := some { id := id, secondsLeft := 1 } } := by
    rw [hs1]
    have h := runHist_replicate_tick 4 (st.shots.filter (fun shot => shot.id != id)) id 5
      (by norm_num)
    norm_num at h
    exact h
  have h5 : runHist (handleLongPressDelete id st) (List.replicate 5 HistEvent.tick)
      = countdownTick (runHist (handleLongPressDelete id st) (List.replicate 4 HistEvent.tick)) := by
    have hsplit : List.replicate 5 HistEvent.tick
        = List.replicate 4 HistEvent.tick ++ [HistEvent.tick] := by rfl
    rw [hsplit, runHist_append, runHist_cons, runHist_nil]
    rfl
  have h5v : runHist (handleLongPressDelete id st) (List.replicate 5 HistEvent.tick)
      = { shots := st.shots.filter (fun shot => shot.id != id), pending := none } := by
    rw [h5, h4]
    simp [countdownTick]
  have habs : id ∉ ((st.shots.filter (fun shot => shot.id != id)).map Shot.id) := by
    simp only [List.mem_map, List.mem_filter]
    rintro ⟨sh, ⟨_, hne⟩, hid⟩
    simp [hid] at hne
  refine ⟨by rw [hs1], ?_, ?_, ?_, countdownTick_shots _, h5⟩
  · rw [h5v, hs1]
  · rw [h5v]
    exact habs
  · rw [h5v]
    rfl

theorem requestDelete_then_five_ticks_witness :
    historyInit.pending = none
    ∧ (3 : Int) ∈ historyInit.shots.map Shot.id
    ∧ (handleLongPressDelete 3 historyInit).pending = some { id := 3, secondsLeft := 5 }
    ∧ (3 : Int) ∉ ((runHist (handleLongPressDelete 3 historyInit)
          (List.replicate 5 HistEvent.tick)).shots.map Shot.id) :=
  ⟨rfl, by decide,
    (requestDelete_then_five_ticks historyInit 3 rfl (by decide)).1,
    (requestDelete_then_five_ticks historyInit 3 rfl (by decide)).2.2.1⟩

/-- C4: from any `Pending` state reached by `requestDelete(id)` on an
identity-ordered store and up to 4 ticks, `undo()` discards the pending
record, returns to `Idle` with the interval stopped, and yields exactly the
store with the removed item appended and sorted by identity, which equals the
store with the item inserted at its identity-ordered position; a further
elapsed second then changes nothing. -/
theorem undo_restores_identity_order (st : HistoryState) (id : Int) (k : Nat)
    (hidle : st.pending = none) (hsorted : List.Sorted shotLe st.shots) (hk : k < 5) :
    (undoDelete (runHist (handleLongPressDelete id st)
          (List.replicate k HistEvent.tick))).pending = none
    ∧ intervalActive (undoDelete (runHist (handleLongPressDelete id st)
          (List.replicate k HistEvent.tick))) = false
    ∧ (undoDelete (runHist (handleLongPressDelete id st)
          (List.replicate k HistEvent.tick))).shots
        = List.insertionSort shotLe
            ((runHist (handleLongPressDelete id st)
                (List.replicate k HistEvent.tick)).shots ++ [{ id := id }])
    ∧ (undoDelete (runHist (handleLongPressDelete id st)
          (List.replicate k HistEvent.tick))).shots
        = List.orderedInsert shotLe { id := id }
            ((runHist (handleLongPressDelete id st)
                (List.replicate k HistEvent.tick)).shots)
    ∧ countdownTick (undoDelete (runHist (handleLongPressDelete id st)
          (List.replicate k HistEvent.tick)))
        = undoDelete (runHist (handleLongPressDelete id st)
            (List.replicate k HistEvent.tick)) := by
  have hs1 : handleLongPressDelete id st
      = { shots := st.shots.filter (fun shot => shot.id != id),
          pending := some { id := id, secondsLeft := 5 } } := by
    simp [handleLongPressDelete, hidle]
  have hkk : (k : Int) < 5 := by exact_mod_cast hk
  have hrun : runHist (handleLongPressDelete id st) (List.replicate k HistEvent.tick)
      = { shots := st.shots.filter (fun shot => shot.id != id),
          pending := some { id := id, secondsLeft := 5 - k } } := by
    rw [hs1]
    exact runHist_replicate_tick k _ id 5 hkk
  have hundo : undoDelete (runHist (handleLongPressDelete id st)
        (List.replicate k HistEvent.tick))
      = { shots := List.insertionSort shotLe
            (st.shots.filter (fun shot => shot.id != id) ++ [{ id := id }]),
          pending := none } := by
    rw [hrun]
    rfl
  have hfsorted : List.Sorted shotLe (st.shots.filter (fun shot => shot.id != id)) :=
    List.Sorted.filter _ hsorted
  have hperm :
      List.Perm
        (List.insertionSort shotLe
          (st.shots.filter (fun shot => shot.id != id) ++ [{ id := id }]))
        (List.orderedInsert shotLe { id := id }
          (st.shots.filter (fun shot => shot.id != id))) :=
    (List.perm_insertionSort shotLe _).trans
      ((List.perm_append_singleton _ _).trans
        (List.perm_orderedInsert shotLe _ _).symm)
  have heq :
      List.insertionSort shotLe
          (st.shots.filter (fun shot => shot.id != id) ++ [{ id := id }])
        = List.orderedInsert shotLe { id := id }
            (st.shots.filter (fun shot => shot.id != id)) :=
    List.eq_of_perm_of_sorted hperm (List.sorted_insertionSort shotLe _)
      (List.Sorted.orderedInsert _ _ hfsorted)
  refine ⟨by rw [hundo], by rw [hundo]; rfl, by rw [hundo, hrun], ?_, by rw [hundo]; rfl⟩
  rw [hundo, hrun]
  exact heq

theorem undo_restores_identity_order_witness :
    historyInit.pending = none
    ∧ List.Sorted shotLe historyInit.shots
    ∧ (2 : Nat) < 5
    ∧ (undoDelete (runHist (handleLongPressDelete 3 historyInit)
          (List.replicate 2 HistEvent.tick))).shots
        = List.orderedInsert shotLe { id := 3 }
            ((runHist (handleLongPressDelete 3 historyInit)
                (List.replicate 2 HistEvent.tick)).shots) :=
  ⟨rfl, by decide, by decide,
    (undo_restores_identity_order historyInit 3 2 rfl (by decide) (by decide)).2.2.2.1⟩

/-! ### Press detector timing lemmas -/

theorem runPress_elapses_idle (ds : List Nat) :
    ∀ st : PressState, st.current = none → st.orphaned = [] →
      runPress st (ds.map PressEvent.elapse)
        = { now := st.now + ds.sum, current := none, orphaned := [],
            fireCount := st.fireCount } := by
  induction ds with
  | nil =>
    intro st hc ho
    cases st
    simp_all [runPress_nil]
  | cons d ds ih =>
    intro st hc ho
    rw [List.map_cons, runPress_cons]
    have hstep : pressStep st (PressEvent.elapse d)
        = { now := st.now + d, current := none, orphaned := [],
            fireCount := st.fireCount } := by
      simp [pressStep, hc, ho]
    rw [hstep, ih _ rfl rfl]
    simp [Nat.add_assoc]

theorem runPress_elapses_armed (ds : List Nat) :
    ∀ (st : PressState) (f : Nat), st.current = some f → st.orphaned = [] →
      st.now + ds.sum < f →
      runPress st (ds.map PressEvent.elapse)
        = { now := st.now + ds.sum, current := some f, orphaned := [],
            fireCount := st.fireCount } := by
  induction ds with
  | nil =>
    intro st f hc ho _
    cases st
    simp_all [runPress_nil]
  | cons d ds ih =>
    intro st f hc ho hlt
    simp only [List.sum_cons] at hlt
    rw [List.map_cons, runPress_cons]
    have hnf : ¬ f ≤ st.now + d := by omega
    have hstep : pressStep st (PressEvent.elapse d)
        = { now := st.now + d, current := some f, orphaned := [],
            fireCount := st.fireCount } := by
      simp [pressStep, hc, ho, hnf]
    rw [hstep, ih _ f rfl rfl (by show st.now + d + ds.sum < f; omega)]
    simp [Nat.add_assoc]

theorem runPress_elapses_fire (ds : List Nat) :
    ∀ (st : PressState) (f : Nat), st.current = some f → st.orphaned = [] →
      st.now < f → f ≤ st.now + ds.sum →
      runPress st (ds.map PressEvent.elapse)
        = { now := st.now + ds.sum, current := none, orphaned := [],
            fireCount := st.fireCount + 1 } := by
  induction ds with
  | nil =>
    intro st f _ _ hgt hle
    simp only [List.sum_nil, Nat.add_zero] at hle
    exact absurd hle (by omega)
  | cons d ds ih =>
    intro st f hc ho hgt hle
    simp only [List.sum_cons] at hle
    rw [List.map_cons, runPress_cons]
    by_cases hfd : f ≤ st.now + d
    · have hstep : pressStep st (PressEvent.elapse d)
          = { now := st.now + d, current := none, orphaned := [],
              fireCount := st.fireCount + 1 } := by
        simp [pressStep, hc, ho, hfd]
      rw [hstep, runPress_elapses_idle ds _ rfl rfl]
      simp [Nat.add_assoc]
    · have hstep : pressStep st (PressEvent.elapse d)
          = { now := st.now + d, current := some f, orphaned := [],
              fireCount := st.fireCount } := by
        simp [pressStep, hc, ho, hfd]
      rw [hstep, ih _ f rfl rfl (by show st.now + d < f; omega)
        (by show f ≤ st.now + d + ds.sum; omega)]
      simp [Nat.add_assoc]

/-- C7: a press session of `onPressStart` followed by a matching end or
cancel while the total elapsed time is still below the 3000 ms threshold
never emits a long-press event for that session, however much more time
elapses afterwards. Starts from an instance with no armed timer. -/
theorem press_end_before_threshold_never_fires (st : PressState) (ds1 ds2 : List Nat)
    (hc : st.current = none) (ho : st.orphaned = []) (hd : ds1.sum < pressThresholdMs) :
    (runPress st (PressEvent.start :: (ds1.map PressEvent.elapse
        ++ PressEvent.stop :: ds2.map PressEvent.elapse))).fireCount = st.fireCount := by
  rw [runPress_cons]
  have hstart : pressStep st PressEvent.start
      = { now := st.now, current := some (st.now + pressThresholdMs), orphaned := [],
          fireCount := st.fireCount } := by
    cases st
    simp_all [pressStep]
  rw [hstart, runPress_append,
    runPress_elapses_armed ds1 _ (st.now + pressThresholdMs) rfl rfl
      (by show st.now + ds1.sum < st.now + pressThresholdMs; omega),
    runPress_cons]
  have hstop : pressStep
        { now := st.now + ds1.sum, current := some (st.now + pressThresholdMs),
          orphaned := [], fireCount := st.fireCount } PressEvent.stop
      = { now := st.now + ds1.sum, current := none, orphaned := [],
          fireCount := st.fireCount } := by
    simp [pressStep]
  rw [hstop, runPress_elapses_idle ds2 _ rfl rfl]

theorem press_end_before_threshold_never_fires_witness :
    List.sum [2999] < pressThresholdMs
    ∧ (runPress pressInit (PressEvent.start :: ([2999].map PressEvent.elapse
        ++ PressEvent.stop :: [5000].map PressEvent.elapse))).fireCount
        = pressInit.fireCount :=
  ⟨by decide,
    press_end_before_threshold_never_fires pressInit [2999] [5000] rfl rfl (by decide)⟩

/-- C8: a press session of `onPressStart` with no end or cancel while at
least 3000 ms elapse emits exactly one long-press event, and the count stays
at exactly one however much further time elapses. Starts from an instance
with no armed timer. -/
theorem press_held_to_threshold_fires_once (st : PressState) (ds : List Nat)
    (hc : st.current = none) (ho : st.orphaned = []) (hd : pressThresholdMs ≤ ds.sum) :
    (runPress st (PressEvent.start :: ds.map PressEvent.elapse)).fireCount
      = st.fireCount + 1 := by
  rw [runPress_cons]
  have hstart : pressStep st PressEvent.start
      = { now := st.now, current := some (st.now + pressThresholdMs), orphaned := [],
          fireCount := st.fireCount } := by
    cases st
    simp_all [pressStep]
  have hT : 0 < pressThresholdMs := by norm_num [pressThresholdMs]
  rw [hstart, runPress_elapses_fire ds _ (st.now + pressThresholdMs) rfl rfl
    (by show st.now < st.now + pressThresholdMs; omega)
    (by show st.now + pressThresholdMs ≤ st.now + ds.sum; omega)]

theorem press_held_to_threshold_fires_once_witness :
    pressThresholdMs ≤ List.sum [3000, 10]
    ∧ (runPress pressInit (PressEvent.start
        :: [3000, 10].map PressEvent.elapse)).fireCount = pressInit.fireCount + 1 :=
  ⟨by decide,
    press_held_to_threshold_fires_once pressInit [3000, 10] rfl rfl (by decide)⟩

/-! ### Store invariants -/

theorem id_not_mem_filtered (id : Int) (sh : List Shot) :
    id ∉ ((sh.filter (fun shot => shot.id != id)).map Shot.id) := by
  simp only [List.mem_map, List.mem_filter]
  rintro ⟨s, ⟨_, hne⟩, hid⟩
  simp [hid] at hne

/-- C9: the store never holds two shots with the same id. The
key-uniqueness invariant — strengthened with the single-slot fact that the
pending id is absent from the store while pending, which is what makes
undo's re-insertion duplicate-free — holds initially, is preserved by every
operation, and hence holds in every reachable state. -/
theorem store_keys_unique :
    histKeyInv historyInit
    ∧ (∀ (st : HistoryState) (e : HistEvent), histKeyInv st → histKeyInv (histStep st e))
    ∧ (∀ evs : List HistEvent, histKeyInv (runHist historyInit evs)) := by
  have hinit : histKeyInv historyInit :=
    ⟨by decide, fun p h => by simp [historyInit] at h⟩
  have hpres : ∀ (st : HistoryState) (e : HistEvent),
      histKeyInv st → histKeyInv (histStep st e) := by
    intro st e hinv
    obtain ⟨hnd, hpa⟩ := hinv
    cases e with
    | requestDelete id =>
      cases hp : st.pending with
      | some p =>
        have hstep : histStep st (HistEvent.requestDelete id) = st := by
          simp [histStep, handleLongPressDelete, hp]
        rw [hstep]
        exact ⟨hnd, hpa⟩
      | none =>
        have hstep : histStep st (HistEvent.requestDelete id)
            = { shots := st.shots.filter (fun shot => shot.id != id),
                pending := some { id := id, secondsLeft := 5 } } := by
          simp [histStep, handleLongPressDelete, hp]
        rw [hstep]
        constructor
        · exact List.Nodup.sublist ((List.filter_sublist _).map Shot.id) hnd
        · intro q hq
          obtain rfl : ({ id := id, secondsLeft := 5 } : PendingRec) = q := by
            simpa using hq
          exact id_not_mem_filtered id st.shots
    | tick =>
      cases hp : st.pending with
      | none =>
        have hstep : histStep st HistEvent.tick = st := by
          simp [histStep, countdownTick, hp]
        rw [hstep]
        exact ⟨hnd, hpa⟩
      | some p =>
        by_cases hle : p.secondsLeft ≤ 1
        · have hstep : histStep st HistEvent.tick = { st with pending := none } := by
            simp [histStep, countdownTick, hp, hle]
          rw [hstep]
          exact ⟨hnd, fun q hq => by simp at hq⟩
        · have hstep : histStep st HistEvent.tick
              = { st with pending := some { id := p.id, secondsLeft := p.secondsLeft - 1 } } := by
            simp [histStep, countdownTick, hp, hle]
          rw [hstep]
          refine ⟨hnd, fun q hq => ?_⟩
          obtain rfl : ({ id := p.id, secondsLeft := p.secondsLeft - 1 } : PendingRec) = q := by
            simpa using hq
          exact hpa p hp
    | undo =>
      cases hp : st.pending with
      | none =>
        have hstep : histStep st HistEvent.undo = st := by
          simp [histStep, undoDelete, hp]
        rw [hstep]
        exact ⟨hnd, hpa⟩
      | some p =>
        have hstep : histStep st HistEvent.undo
            = { shots := List.insertionSort shotLe (st.shots ++ [{ id := p.id }]),
                pending := none } := by
          simp [histStep, undoDelete, hp]
        rw [hstep]
        constructor
        · have hperm1 : List.Perm
              ((List.insertionSort shotLe (st.shots ++ [Shot.mk p.id])).map Shot.id)
              ((st.shots ++ [Shot.mk p.id]).map Shot.id) :=
            (List.perm_insertionSort shotLe _).map Shot.id
          have hperm2 : List.Perm ((st.shots ++ [Shot.mk p.id]).map Shot.id)
              (p.id :: st.shots.map Shot.id) := by
            simp only [List.map_append, List.map_cons, List.map_nil]
            exact List.perm_append_singleton _ _
          have hnodup : (p.id :: st.shots.map Shot.id).Nodup :=
            List.nodup_cons.2 ⟨hpa p hp, hnd⟩
          exact (hperm1.trans hperm2).nodup_iff.2 hnodup
        · intro q hq
          simp at hq
  have hrun : ∀ (evs : List HistEvent) (st : HistoryState),
      histKeyInv st → histKeyInv (runHist st evs) := by
    intro evs
    induction evs with
    | nil => intro st h; simpa [runHist_nil] using h
    | cons e evs ih =>
      intro st h
      rw [runHist_cons]
      exact ih _ (hpres st e h)
  exact ⟨hinit, hpres, fun evs => hrun evs historyInit hinit⟩

theorem store_keys_unique_witness :
    histKeyInv (histStep historyInit (HistEvent.requestDelete 3)) :=
  store_keys_unique.2.1 historyInit (HistEvent.requestDelete 3)
    ⟨by decide, fun p h => by simp [historyInit] at h⟩

/-- C10: whenever a pending record exists, its countdown value lies between
1 and 5 inclusive — the record is discarded on the tick that would take it
to 0, so a snapshot never shows 0. The bound holds initially, is preserved
by every operation, and hence holds in every reachable state. -/
theorem pending_seconds_in_range :
    pendingSecondsInv historyInit
    ∧ (∀ (st : HistoryState) (e : HistEvent),
        pendingSecondsInv st → pendingSecondsInv (histStep st e))
    ∧ (∀ evs : List HistEvent, pendingSecondsInv (runHist historyInit evs)) := by
  have hinit : pendingSecondsInv historyInit := fun p h => by simp [historyInit] at h
  have hpres : ∀ (st : HistoryState) (e : HistEvent),
      pendingSecondsInv st → pendingSecondsInv (histStep st e) := by
    intro st e hinv
    cases e with
    | requestDelete id =>
      cases hp : st.pending with
      | some p =>
        have hstep : histStep st (HistEvent.requestDelete id) = st := by
          simp [histStep, handleLongPressDelete, hp]
        rw [hstep]
        exact hinv
      | none =>
        have hstep : histStep st (HistEvent.requestDelete id)
            = { shots := st.shots.filter (fun shot => shot.id != id),
                pending := some { id := id, secondsLeft := 5 } } := by
          simp [histStep, handleLongPressDelete, hp]
        rw [hstep]
        intro q hq
        obtain rfl : ({ id := id, secondsLeft := 5 } : PendingRec) = q := by simpa using hq
        norm_num
    | tick =>
      cases hp : st.pending with
      | none =>
        have hstep : histStep st HistEvent.tick = st := by
          simp [histStep, countdownTick, hp]
        rw [hstep]
        exact hinv
      | some p =>
        by_cases hle : p.secondsLeft ≤ 1
        · have hstep : histStep st HistEvent.tick = { st with pending := none } := by
            simp [histStep, countdownTick, hp, hle]
          rw [hstep]
          intro q hq
          simp at hq
        · have hstep : histStep st HistEvent.tick
              = { st with pending := some { id := p.id, secondsLeft := p.secondsLeft - 1 } } := by
            simp [histStep, countdownTick, hp, hle]
          rw [hstep]
          intro q hq
          obtain rfl : ({ id := p.id, secondsLeft := p.secondsLeft - 1 } : PendingRec) = q := by
            simpa using hq
          have := hinv p hp
          constructor <;> simp <;> omega
    | undo =>
      cases hp : st.pending with
      | none =>
        have hstep : histStep st HistEvent.undo = st := by
          simp [histStep, undoDelete, hp]
        rw [hstep]
        exact hinv
      | some p =>
        have hstep : histStep st HistEvent.undo
            = { shots := List.insertionSort shotLe (st.shots ++ [{ id := p.id }]),
                pending := none } := by
          simp [histStep, undoDelete, hp]
        rw [hstep]
        intro q hq
        simp at hq
  have hrun : ∀ (evs : List HistEvent) (st : HistoryState),
      pendingSecondsInv st → pendingSecondsInv (runHist st evs) := by
    intro evs
    induction evs with
    | nil => intro st h; simpa [runHist_nil] using h
    | cons e evs ih =>
      intro st h
      rw [runHist_cons]
      exact ih _ (hpres st e h)
  exact ⟨hinit, hpres, fun evs => hrun evs historyInit hinit⟩

theorem pending_seconds_in_range_witness :
    pendingSecondsInv (runHist historyInit [HistEvent.requestDelete 3, HistEvent.tick]) :=
  pending_seconds_in_range.2.2 [HistEvent.requestDelete 3, HistEvent.tick]
